import Mathlib

/-!
# Shallow embedding of `config_schizophrenia.py`

The program scans a directory tree for configuration files matching fixed
glob patterns, groups them by basename, flags groups with diverging
contents, and audits a fixed list of environment variables.

Modelling choices:
* A filesystem path is a `List String` of its components, as yielded by
  `Path('.').rglob` (relative, no leading `./`).  `str(path)` joins the
  components with `/`; `path.name` is the last component.
* The directory tree is a `List FPath`: the sequence of paths `rglob`
  visits, in traversal order (every pattern visits the same sequence).
* The filesystem contents are a function `String → Except String String`:
  `.ok c` when `open(path).read()` returns `c`, `.error e` when it raises
  an exception whose string form is `e`.
* The environment is a function `String → Option String`.
-/

/-- One filesystem path, as its list of components. -/
abbrev FPath := List String

/-- `str(path)`: the components joined with `/`. -/
def pathStr (p : FPath) : String := String.intercalate "/" p

/-- `path.name`: the final component. -/
def fileName (p : FPath) : String := p.getLastD ""

/-- Python's `needle in hay` substring test. -/
def containsSub (hay needle : String) : Bool := decide (needle.data <:+: hay.data)

/-- The search loop for a `*` wildcard: try matching the rest of the
pattern (`f`) against every suffix of the string. -/
def globStar (f : List Char → Bool) : List Char → Bool
  | [] => f []
  | c :: cs => f (c :: cs) || globStar f cs

/-- `fnmatch`-style glob matching with `*` wildcards only (the only
metacharacter occurring in the program's patterns).  `*` matches any
(possibly empty) sequence of characters. -/
def globMatch : List Char → List Char → Bool
  | [], s => s.isEmpty
  | p :: ps, s =>
    if p = '*' then globStar (globMatch ps) s
    else
      match s with
      | [] => false
      | c :: cs => p == c && globMatch ps cs

/-- `CONFIG_PATTERNS` from the source. -/
def CONFIG_PATTERNS : List String := [".env", "config*.json", "settings*.py", "*.yaml", "*.yml"]

/-- The excluded directory names checked (as substrings of `str(path)`). -/
def EXCLUDED : List String := ["__pycache__", "venv", ".git", "node_modules"]

/-- The skip test of `find_config_files`:
`any(part in str(path) for part in ['__pycache__', 'venv', '.git', 'node_modules'])`.
Note this is a substring test on the whole path string, not an equality
test on path components. -/
def excludedHit (p : FPath) : Bool := EXCLUDED.any (fun part => containsSub (pathStr p) part)

/-- `configs[key].append(v)` on a `defaultdict(list)` kept as an ordered
association list: append `v` to the list at `key`, creating the key at the
end when absent (Python dicts preserve insertion order). -/
def addToGroup (configs : List (String × List String)) (key : String) (v : String) :
    List (String × List String) :=
  match configs with
  | [] => [(key, [v])]
  | (k, vs) :: rest =>
    if k = key then (k, vs ++ [v]) :: rest else (k, vs) :: addToGroup rest key v

/-- The inner loop of `find_config_files` for one pattern:
`for path in Path('.').rglob(pattern): if <excluded>: continue; configs[path.name].append(str(path))`. -/
def processPattern (tree : List FPath) (configs : List (String × List String))
    (pattern : String) : List (String × List String) :=
  tree.foldl (fun cfgs p =>
    if globMatch pattern.data (fileName p).data then
      if excludedHit p then cfgs else addToGroup cfgs (fileName p) (pathStr p)
    else cfgs) configs

/-- `find_config_files()`: group every non-excluded match of every pattern
by its basename. -/
def find_config_files (tree : List FPath) : List (String × List String) :=
  CONFIG_PATTERNS.foldl (processPattern tree) []

/-- All `(basename, path)` entries of a grouping, in group order. -/
def allEntries (configs : List (String × List String)) : List (String × String) :=
  configs.flatMap (fun g => g.2.map (fun v => (g.1, v)))

/-- One divergence issue, `{'file': ..., 'paths': ..., 'differences': True}`. -/
structure Issue where
  file : String
  paths : List String
  differences : Bool
deriving DecidableEq

/-- The content value a path contributes to the comparison: the file's text
on success, the sentinel `"ERROR: " ++ e` when reading raised `e`. -/
def readContent (fs : String → Except String String) (path : String) : String :=
  match fs path with
  | .ok c => c
  | .error e => "ERROR: " ++ e

/-- The body of `compare_configs` for one `(filename, paths)` group. -/
def compareGroup (fs : String → Except String String) (g : String × List String) :
    List Issue :=
  if g.2.length > 1 then
    if (g.2.map (readContent fs)).dedup.length > 1 then
      [⟨g.1, g.2, true⟩]
    else []
  else []

/-- `compare_configs(configs)`: collect an issue for every multi-path group
whose content values are not all identical. -/
def compare_configs (fs : String → Except String String)
    (configs : List (String × List String)) : List Issue :=
  configs.flatMap (compareGroup fs)

/-- The fixed suspect list of `check_env_vars`. -/
def suspects : List String := ["DATABASE_URL", "API_KEY", "SECRET", "DEBUG", "ENVIRONMENT"]

/-- `f"{suspect}: Using localhost in production? Bold."` -/
def localhostMsg (s : String) : String := s ++ ": Using localhost in production? Bold."

/-- `f"{suspect}: Not set (probably fine... probably)"` -/
def notSetMsg (s : String) : String := s ++ ": Not set (probably fine... probably)"

/-- The body of `check_env_vars` for one suspect. -/
def checkSuspect (env : String → Option String) (suspect : String) : List String :=
  match env suspect with
  | some value =>
    if containsSub value "localhost" && containsSub ((env "ENVIRONMENT").getD "") "production"
    then [localhostMsg suspect]
    else []
  | none => [notSetMsg suspect]

/-- `check_env_vars()`: the issue strings accumulated over the suspects in order. -/
def check_env_vars (env : String → Option String) : List String :=
  suspects.flatMap (checkSuspect env)

/-- `main()`'s return value (the process exit status): `1` if either the
divergence list or the environment-issue list is non-empty, else `0`. -/
def mainResult (tree : List FPath) (fs : String → Except String String)
    (env : String → Option String) : Nat :=
  let configs := find_config_files tree
  let issues := compare_configs fs configs
  let envIssues := check_env_vars env
  if issues ≠ [] ∨ envIssues ≠ [] then 1 else 0

/-- A concrete environment: `DATABASE_URL` points at localhost while
`ENVIRONMENT` is `production`; the other suspects are unset. -/
def envA : String → Option String := fun v =>
  if v = "DATABASE_URL" then some "http://localhost:5432"
  else if v = "ENVIRONMENT" then some "production"
  else none

/-- A concrete environment: only `ENVIRONMENT` carries both `localhost` and
`production`; every other suspect is set to a clean value. -/
def envB : String → Option String := fun v =>
  if v = "ENVIRONMENT" then some "production-db-at-localhost" else some "safe"

/-- A concrete filesystem with two diverging readable files. -/
def fsA : String → Except String String := fun p =>
  if p = "a" then .ok "x" else .ok "y"

/-- A concrete filesystem where one file's real content coincides with the
read-error sentinel produced for another file. -/
def fsB : String → Except String String := fun p =>
  if p = "a" then .ok "ERROR: boom" else .error "boom"

/-- The `(basename, path-string)` entry a tree path contributes. -/
def entryOf (p : FPath) : String × String := (fileName p, pathStr p)

/-- The tree paths one pattern discovers: matched and not excluded. -/
def hits (tree : List FPath) (pattern : String) : List FPath :=
  tree.filter (fun p => globMatch pattern.data (fileName p).data && !excludedHit p)

theorem mem_checkSuspect (env : String → Option String) (t msg : String) :
    msg ∈ checkSuspect env t ↔
      (msg = localhostMsg t ∧ ∃ v, env t = some v ∧
        containsSub v "localhost" = true ∧
        containsSub ((env "ENVIRONMENT").getD "") "production" = true) ∨
      (msg = notSetMsg t ∧ env t = none) := by
  cases h : env t with
  | none => simp [checkSuspect, h]
  | some v =>
    simp only [checkSuspect, h]
    by_cases h1 : containsSub v "localhost" = true
    · by_cases h2 : containsSub ((env "ENVIRONMENT").getD "") "production" = true
      · simp [h1, h2]
      · simp [h1, h2]
    · simp [h1]

theorem msgs_distinct : ∀ s ∈ suspects, ∀ t ∈ suspects,
    (localhostMsg s = localhostMsg t ↔ s = t) ∧
    (notSetMsg s = notSetMsg t ↔ s = t) ∧
    localhostMsg s ≠ notSetMsg t := by decide

theorem mem_check_env_vars (env : String → Option String) (msg : String) :
    msg ∈ check_env_vars env ↔ ∃ t ∈ suspects, msg ∈ checkSuspect env t := by
  simp [check_env_vars]

/-- C2: for every suspect in the fixed list, the localhost-in-production
issue naming that suspect is emitted exactly when the suspect is set, its
own value contains `localhost`, and the separately-looked-up `ENVIRONMENT`
value (empty if unset) contains `production`. -/
theorem c2_localhost_warning (env : String → Option String) (s : String) (hs : s ∈ suspects) :
    localhostMsg s ∈ check_env_vars env ↔
      ∃ v, env s = some v ∧ containsSub v "localhost" = true ∧
        containsSub ((env "ENVIRONMENT").getD "") "production" = true := by
  rw [mem_check_env_vars]
  constructor
  · rintro ⟨t, ht, hmem⟩
    rcases (mem_checkSuspect env t _).1 hmem with ⟨heq, hv⟩ | ⟨heq, _⟩
    · obtain rfl : s = t := ((msgs_distinct s hs t ht).1).1 heq
      exact hv
    · exact absurd heq (msgs_distinct s hs t ht).2.2
  · intro hv
    exact ⟨s, hs, (mem_checkSuspect env s _).2 (Or.inl ⟨rfl, hv⟩)⟩

theorem c2_witness : localhostMsg "DATABASE_URL" ∈ check_env_vars envA :=
  (c2_localhost_warning envA "DATABASE_URL" (by decide)).2
    ⟨"http://localhost:5432", rfl, by decide, by decide⟩

/-- C8: for every suspect in the fixed list, an unset variable yields the
`not set` message naming it, and a set variable yields no such message. -/
theorem c8_not_set (env : String → Option String) (s : String) (hs : s ∈ suspects) :
    (env s = none → notSetMsg s ∈ check_env_vars env) ∧
    (∀ v, env s = some v → notSetMsg s ∉ check_env_vars env) := by
  constructor
  · intro h
    exact (mem_check_env_vars env _).2 ⟨s, hs, (mem_checkSuspect env s _).2 (Or.inr ⟨rfl, h⟩)⟩
  · intro v h hmem
    rcases (mem_check_env_vars env _).1 hmem with ⟨t, ht, hc⟩
    rcases (mem_checkSuspect env t _).1 hc with ⟨heq, _⟩ | ⟨heq, hnone⟩
    · exact (msgs_distinct t ht s hs).2.2 heq.symm
    · obtain rfl : s = t := ((msgs_distinct s hs t ht).2.1).1 heq
      rw [h] at hnone
      exact Option.noConfusion hnone

theorem c8_witness : notSetMsg "API_KEY" ∈ check_env_vars envA :=
  (c8_not_set envA "API_KEY" (by decide)).1 rfl

/-- C9: `ENVIRONMENT` is itself subject to the localhost check: when its
value contains both `localhost` and `production`, the auditor emits the
localhost-in-production warning naming `ENVIRONMENT`. -/
theorem c9_environment_self (env : String → Option String) (v : String)
    (he : env "ENVIRONMENT" = some v)
    (h1 : containsSub v "localhost" = true) (h2 : containsSub v "production" = true) :
    localhostMsg "ENVIRONMENT" ∈ check_env_vars env := by
  refine (mem_check_env_vars env _).2 ⟨"ENVIRONMENT", by decide, ?_⟩
  refine (mem_checkSuspect env _ _).2 (Or.inl ⟨rfl, v, he, h1, ?_⟩)
  rw [he]
  simpa using h2

theorem c9_witness : localhostMsg "ENVIRONMENT" ∈ check_env_vars envB :=
  c9_environment_self envB "production-db-at-localhost" rfl (by decide) (by decide)

/-- C3: the exit status is `0` exactly when both the divergence list and
the environment-issue list are empty, `1` exactly when either is
non-empty, and nothing else. -/
theorem c3_exit_code (tree : List FPath) (fs : String → Except String String)
    (env : String → Option String) :
    (mainResult tree fs env = 0 ↔
      compare_configs fs (find_config_files tree) = [] ∧ check_env_vars env = []) ∧
    (mainResult tree fs env = 1 ↔
      (compare_configs fs (find_config_files tree) ≠ [] ∨ check_env_vars env ≠ [])) ∧
    (mainResult tree fs env = 0 ∨ mainResult tree fs env = 1) := by
  unfold mainResult
  by_cases h1 : compare_configs fs (find_config_files tree) = [] <;>
    by_cases h2 : check_env_vars env = [] <;> simp [h1, h2]

theorem mem_compareGroup (fs : String → Except String String)
    (g : String × List String) (i : Issue) (h : i ∈ compareGroup fs g) :
    i = ⟨g.1, g.2, true⟩ := by
  unfold compareGroup at h
  split at h
  · split at h
    · simpa using h
    · simp at h
  · simp at h

theorem filter_compareGroup (fs : String → Except String String)
    (g : String × List String) (name : String) :
    (compareGroup fs g).filter (fun i => i.file == name) =
      if g.1 = name then compareGroup fs g else [] := by
  unfold compareGroup
  split
  · split
    · by_cases h : g.1 = name
      · simp [List.filter, h]
      · have hb : (g.1 == name) = false := beq_eq_false_iff_ne.2 h
        simp [List.filter, h, hb]
    · simp
  · simp

theorem compare_configs_cons (fs : String → Except String String)
    (g : String × List String) (rest : List (String × List String)) :
    compare_configs fs (g :: rest) = compareGroup fs g ++ compare_configs fs rest := by
  simp [compare_configs]

theorem filter_compare_configs_not_mem (fs : String → Except String String)
    (configs : List (String × List String)) (name : String)
    (h : name ∉ configs.map Prod.fst) :
    (compare_configs fs configs).filter (fun i => i.file == name) = [] := by
  induction configs with
  | nil => rfl
  | cons g rest ih =>
    simp only [List.map_cons, List.mem_cons, not_or] at h
    obtain ⟨hg, hrest⟩ := h
    rw [compare_configs_cons, List.filter_append, filter_compareGroup,
      if_neg (fun e => hg e.symm)]
    exact ih hrest

theorem filter_compare_configs (fs : String → Except String String)
    (configs : List (String × List String)) (name : String) (paths : List String)
    (hk : (configs.map Prod.fst).Nodup) (hmem : (name, paths) ∈ configs) :
    (compare_configs fs configs).filter (fun i => i.file == name) =
      compareGroup fs (name, paths) := by
  induction configs with
  | nil => cases hmem
  | cons g rest ih =>
    rw [List.map_cons, List.nodup_cons] at hk
    obtain ⟨hg, hk'⟩ := hk
    rw [compare_configs_cons, List.filter_append]
    rcases List.mem_cons.1 hmem with heq | hmem'
    · obtain rfl := heq.symm
      rw [filter_compareGroup, if_pos rfl,
        filter_compare_configs_not_mem fs rest name hg, List.append_nil]
    · have hname : name ∈ rest.map Prod.fst := List.mem_map_of_mem Prod.fst hmem'
      have hne : g.1 ≠ name := fun e => hg (e ▸ hname)
      rw [filter_compareGroup, if_neg hne, List.nil_append]
      exact ih hk' hmem'

theorem exists_ne_iff_one_lt_dedup (cs : List String) :
    (∃ x ∈ cs, ∃ y ∈ cs, x ≠ y) ↔ 1 < cs.dedup.length := by
  constructor
  · rintro ⟨x, hx, y, hy, hxy⟩
    have hx' : x ∈ cs.dedup := List.mem_dedup.2 hx
    have hy' : y ∈ cs.dedup := List.mem_dedup.2 hy
    rcases hdd : cs.dedup with _ | ⟨a, _ | ⟨b, t⟩⟩
    · rw [hdd] at hx'; cases hx'
    · rw [hdd] at hx' hy'
      simp only [List.mem_singleton] at hx' hy'
      exact absurd (hx'.trans hy'.symm) hxy
    · simp
  · intro h
    rcases hdd : cs.dedup with _ | ⟨a, _ | ⟨b, t⟩⟩
    · rw [hdd] at h; simp at h
    · rw [hdd] at h; simp at h
    · have hnd := cs.nodup_dedup
      rw [hdd] at hnd
      have hab : a ≠ b := by
        rcases List.nodup_cons.1 hnd with ⟨ha, _⟩
        exact fun e => ha (e ▸ List.mem_cons_self b t)
      have ha : a ∈ cs := List.mem_dedup.1 (by rw [hdd]; exact List.mem_cons_self a _)
      have hb : b ∈ cs := List.mem_dedup.1
        (by rw [hdd]; exact List.mem_cons_of_mem a (List.mem_cons_self b t))
      exact ⟨a, ha, b, hb, hab⟩

/-- C4: for a basename with at least two paths, identical content values
produce no issue, and any difference produces exactly one issue carrying
the full path list and the constant `differences := true` marker. -/
theorem c4_divergence (fs : String → Except String String)
    (configs : List (String × List String)) (name : String) (paths : List String)
    (hk : (configs.map Prod.fst).Nodup) (hmem : (name, paths) ∈ configs)
    (hlen : 2 ≤ paths.length) :
    ((∀ p ∈ paths, ∀ q ∈ paths, readContent fs p = readContent fs q) →
      (compare_configs fs configs).filter (fun i => i.file == name) = []) ∧
    ((∃ p ∈ paths, ∃ q ∈ paths, readContent fs p ≠ readContent fs q) →
      (compare_configs fs configs).filter (fun i => i.file == name) =
        [⟨name, paths, true⟩]) := by
  rw [filter_compare_configs fs configs name paths hk hmem]
  unfold compareGroup
  have hl : (name, paths).2.length > 1 := hlen
  rw [if_pos hl]
  constructor
  · intro hall
    have hcond : ¬1 < ((name, paths).2.map (readContent fs)).dedup.length := by
      rw [← exists_ne_iff_one_lt_dedup]
      rintro ⟨x, hx, y, hy, hxy⟩
      rcases List.mem_map.1 hx with ⟨p, hp, rfl⟩
      rcases List.mem_map.1 hy with ⟨q, hq, rfl⟩
      exact hxy (hall p hp q hq)
    rw [if_neg hcond]
  · rintro ⟨p, hp, q, hq, hpq⟩
    have hcond : 1 < ((name, paths).2.map (readContent fs)).dedup.length := by
      rw [← exists_ne_iff_one_lt_dedup]
      exact ⟨_, List.mem_map_of_mem _ hp, _, List.mem_map_of_mem _ hq, hpq⟩
    rw [if_pos hcond]

theorem c4_witness :
    (compare_configs fsA [("config.json", ["a", "b"])]).filter
      (fun i => i.file == "config.json") = [⟨"config.json", ["a", "b"], true⟩] :=
  (c4_divergence fsA [("config.json", ["a", "b"])] "config.json" ["a", "b"]
    (by decide) (by decide) (by decide)).2
    ⟨"a", by decide, "b", by decide, by decide⟩

/-- C6: a basename whose group has exactly one path is never reported,
whatever the filesystem contents or readability. -/
theorem c6_single_path (fs : String → Except String String)
    (configs : List (String × List String)) (name : String) (paths : List String)
    (hk : (configs.map Prod.fst).Nodup) (hmem : (name, paths) ∈ configs)
    (h1 : paths.length = 1) :
    (compare_configs fs configs).filter (fun i => i.file == name) = [] := by
  rw [filter_compare_configs fs configs name paths hk hmem]
  unfold compareGroup
  rw [if_neg (by simp [h1])]

theorem c6_witness :
    (compare_configs fsB [("a.yaml", ["only"])]).filter (fun i => i.file == "a.yaml") = [] :=
  c6_single_path fsB [("a.yaml", ["only"])] "a.yaml" ["only"]
    (by decide) (by decide) (by decide)

/-- C7: a failed read is recovered locally by substituting
`ERROR: <message>` as that path's content, and the comparison still
produces its result for every group. -/
theorem c7_read_failure (fs : String → Except String String)
    (configs : List (String × List String)) (name : String) (paths : List String)
    (p e : String) (hk : (configs.map Prod.fst).Nodup) (hmem : (name, paths) ∈ configs)
    (_hp : p ∈ paths) (he : fs p = .error e) :
    readContent fs p = "ERROR: " ++ e ∧
    (compare_configs fs configs).filter (fun i => i.file == name) =
      compareGroup fs (name, paths) := by
  refine ⟨?_, filter_compare_configs fs configs name paths hk hmem⟩
  unfold readContent
  rw [he]

theorem c7_witness :
    readContent fsB "b" = "ERROR: " ++ "boom" ∧
    (compare_configs fsB [("config.json", ["a", "b"])]).filter
      (fun i => i.file == "config.json") = compareGroup fsB ("config.json", ["a", "b"]) :=
  c7_read_failure fsB [("config.json", ["a", "b"])] "config.json" ["a", "b"] "b" "boom"
    (by decide) (by decide) (by decide) rfl

/-- C5 counterexample: in a compared group, the sentinel produced for a
failed read equals the real content of another file in the group, so no
distinctness holds and the divergence goes unreported. -/
theorem c5_counterexample :
    fsB "a" = Except.ok "ERROR: boom" ∧ fsB "b" = Except.error "boom" ∧
    readContent fsB "b" = readContent fsB "a" ∧
    compare_configs fsB [("config.json", ["a", "b"])] = [] := by
  refine ⟨rfl, rfl, rfl, ?_⟩
  decide

/-- C5 (amended): the sentinel of a failed read is `ERROR: ` followed by
the message, and two sentinels coincide exactly when their messages do;
no distinctness from real contents is guaranteed. -/
theorem c5_sentinel (fs : String → Except String String) (p q e₁ e₂ : String)
    (hp : fs p = .error e₁) (hq : fs q = .error e₂) :
    readContent fs p = "ERROR: " ++ e₁ ∧
    (readContent fs p = readContent fs q ↔ e₁ = e₂) := by
  have h1 : readContent fs p = "ERROR: " ++ e₁ := by unfold readContent; rw [hp]
  have h2 : readContent fs q = "ERROR: " ++ e₂ := by unfold readContent; rw [hq]
  refine ⟨h1, ?_⟩
  rw [h1, h2]
  constructor
  · intro h
    have hd := congrArg String.data h
    rw [String.data_append, String.data_append] at hd
    exact String.ext (List.append_cancel_left hd)
  · rintro rfl; rfl

theorem c5_witness :
    readContent fsB "b" = "ERROR: " ++ "boom" ∧
    (readContent fsB "b" = readContent fsB "c" ↔ "boom" = "boom") :=
  c5_sentinel fsB "b" "c" "boom" "boom" rfl rfl

theorem globMatch_nil_eq (s : List Char) : globMatch [] s = s.isEmpty := by
  rw [globMatch]

theorem globMatch_star_eq (ps s : List Char) :
    globMatch ('*' :: ps) s = globStar (globMatch ps) s := by
  rw [globMatch.eq_def]; simp

theorem globMatch_star_nil (ps : List Char) : globMatch ('*' :: ps) [] = globMatch ps [] := by
  rw [globMatch_star_eq, globStar]

theorem globMatch_star_cons (ps : List Char) (c : Char) (cs : List Char) :
    globMatch ('*' :: ps) (c :: cs) =
      (globMatch ps (c :: cs) || globMatch ('*' :: ps) cs) := by
  rw [globMatch_star_eq, globMatch_star_eq, globStar]

theorem globMatch_litc_nil (p : Char) (ps : List Char) (hp : p ≠ '*') :
    globMatch (p :: ps) [] = false := by
  rw [globMatch]; simp [hp]

theorem globMatch_litc_cons (p : Char) (ps : List Char) (c : Char) (cs : List Char)
    (hp : p ≠ '*') :
    globMatch (p :: ps) (c :: cs) = (p == c && globMatch ps cs) := by
  rw [globMatch]; simp [hp]

theorem globMatch_lit (lit : List Char) (hstar : '*' ∉ lit) :
    ∀ s, globMatch lit s = true ↔ s = lit := by
  induction lit with
  | nil => intro s; rw [globMatch_nil_eq]; simp [List.isEmpty_iff]
  | cons p ps ih =>
    have hp : p ≠ '*' := fun e => hstar (by rw [e]; exact List.mem_cons_self _ _)
    have hps : '*' ∉ ps := fun h => hstar (List.mem_cons_of_mem _ h)
    intro s
    cases s with
    | nil => rw [globMatch_litc_nil p ps hp]; simp
    | cons c cs =>
      rw [globMatch_litc_cons p ps c cs hp, Bool.and_eq_true, beq_iff_eq, ih hps cs]
      constructor
      · rintro ⟨rfl, rfl⟩; rfl
      · intro h
        injection h with h1 h2
        exact ⟨h1.symm, h2⟩

theorem globMatch_star (ps : List Char) :
    ∀ s, globMatch ('*' :: ps) s = true ↔ ∃ t, t <:+ s ∧ globMatch ps t = true := by
  intro s
  induction s with
  | nil =>
    rw [globMatch_star_nil]
    constructor
    · intro h; exact ⟨[], List.suffix_refl _, h⟩
    · rintro ⟨t, ht, hm⟩
      rw [List.suffix_nil] at ht
      rw [← ht]; exact hm
  | cons c cs ih =>
    rw [globMatch_star_cons, Bool.or_eq_true, ih]
    constructor
    · rintro (h | ⟨t, ht, hm⟩)
      · exact ⟨c :: cs, List.suffix_refl _, h⟩
      · exact ⟨t, ht.trans (List.suffix_cons c cs), hm⟩
    · rintro ⟨t, ht, hm⟩
      obtain ⟨pre, hpre⟩ := ht
      cases pre with
      | nil =>
        left
        have : t = c :: cs := by simpa using hpre
        rw [← this]; exact hm
      | cons d ds =>
        right
        injection hpre with h1 h2
        exact ⟨t, ⟨ds, h2⟩, hm⟩

theorem globMatch_lit_append (lit : List Char) (hstar : '*' ∉ lit) (rest : List Char) :
    ∀ s, globMatch (lit ++ rest) s = true ↔
      ∃ s₂, s = lit ++ s₂ ∧ globMatch rest s₂ = true := by
  induction lit with
  | nil => intro s; simp
  | cons p ps ih =>
    have hp : p ≠ '*' := fun e => hstar (by rw [e]; exact List.mem_cons_self _ _)
    have hps : '*' ∉ ps := fun h => hstar (List.mem_cons_of_mem _ h)
    intro s
    cases s with
    | nil =>
      rw [List.cons_append, globMatch_litc_nil _ _ hp]
      simp
    | cons c cs =>
      rw [List.cons_append, globMatch_litc_cons _ _ _ _ hp, Bool.and_eq_true, beq_iff_eq,
        ih hps cs]
      constructor
      · rintro ⟨rfl, s₂, rfl, hm⟩
        exact ⟨s₂, rfl, hm⟩
      · rintro ⟨s₂, heq, hm⟩
        injection heq with h1 h2
        exact ⟨h1.symm, s₂, h2, hm⟩

theorem match_env (s : List Char) (h : globMatch ".env".data s = true) : s = ".env".data :=
  (globMatch_lit ".env".data (by decide) s).1 h

theorem match_config_json (s : List Char) (h : globMatch "config*.json".data s = true) :
    ".json".data <:+ s := by
  have hdec : "config*.json".data = "config".data ++ '*' :: ".json".data := rfl
  rw [hdec] at h
  obtain ⟨s₂, rfl, h₂⟩ := (globMatch_lit_append "config".data (by decide) _ s).1 h
  obtain ⟨t, ht, hm⟩ := (globMatch_star ".json".data s₂).1 h₂
  have hteq : t = ".json".data := (globMatch_lit ".json".data (by decide) t).1 hm
  rw [← hteq]
  exact ht.trans ⟨"config".data, rfl⟩

theorem match_settings_py (s : List Char) (h : globMatch "settings*.py".data s = true) :
    ".py".data <:+ s := by
  have hdec : "settings*.py".data = "settings".data ++ '*' :: ".py".data := rfl
  rw [hdec] at h
  obtain ⟨s₂, rfl, h₂⟩ := (globMatch_lit_append "settings".data (by decide) _ s).1 h
  obtain ⟨t, ht, hm⟩ := (globMatch_star ".py".data s₂).1 h₂
  have hteq : t = ".py".data := (globMatch_lit ".py".data (by decide) t).1 hm
  rw [← hteq]
  exact ht.trans ⟨"settings".data, rfl⟩

theorem match_yaml (s : List Char) (h : globMatch "*.yaml".data s = true) :
    ".yaml".data <:+ s := by
  have hdec : "*.yaml".data = '*' :: ".yaml".data := rfl
  rw [hdec] at h
  obtain ⟨t, ht, hm⟩ := (globMatch_star ".yaml".data s).1 h
  have hteq : t = ".yaml".data := (globMatch_lit ".yaml".data (by decide) t).1 hm
  rw [← hteq]
  exact ht

theorem match_yml (s : List Char) (h : globMatch "*.yml".data s = true) :
    ".yml".data <:+ s := by
  have hdec : "*.yml".data = '*' :: ".yml".data := rfl
  rw [hdec] at h
  obtain ⟨t, ht, hm⟩ := (globMatch_star ".yml".data s).1 h
  have hteq : t = ".yml".data := (globMatch_lit ".yml".data (by decide) t).1 hm
  rw [← hteq]
  exact ht

theorem suffix_conflict (a b s : List Char) (ha : a <:+ s) (hb : b <:+ s)
    (h1 : ¬a <:+ b) (h2 : ¬b <:+ a) : False := by
  rcases List.suffix_or_suffix_of_suffix ha hb with h | h
  exacts [h1 h, h2 h]

theorem patterns_disjoint (s : List Char) :
    ∀ p₁ ∈ CONFIG_PATTERNS, ∀ p₂ ∈ CONFIG_PATTERNS,
      globMatch p₁.data s = true → globMatch p₂.data s = true → p₁ = p₂ := by
  intro p₁ h₁ p₂ h₂ hm₁ hm₂
  fin_cases h₁ <;> fin_cases h₂ <;>
    first
      | rfl
      | (rw [match_env s hm₁] at hm₂; exact absurd hm₂ (by decide))
      | (rw [match_env s hm₂] at hm₁; exact absurd hm₁ (by decide))
      | exact (suffix_conflict _ _ s (match_config_json s hm₁)
          (match_settings_py s hm₂) (by decide) (by decide)).elim
      | exact (suffix_conflict _ _ s (match_config_json s hm₁)
          (match_yaml s hm₂) (by decide) (by decide)).elim
      | exact (suffix_conflict _ _ s (match_config_json s hm₁)
          (match_yml s hm₂) (by decide) (by decide)).elim
      | exact (suffix_conflict _ _ s (match_settings_py s hm₁)
          (match_config_json s hm₂) (by decide) (by decide)).elim
      | exact (suffix_conflict _ _ s (match_settings_py s hm₁)
          (match_yaml s hm₂) (by decide) (by decide)).elim
      | exact (suffix_conflict _ _ s (match_settings_py s hm₁)
          (match_yml s hm₂) (by decide) (by decide)).elim
      | exact (suffix_conflict _ _ s (match_yaml s hm₁)
          (match_config_json s hm₂) (by decide) (by decide)).elim
      | exact (suffix_conflict _ _ s (match_yaml s hm₁)
          (match_settings_py s hm₂) (by decide) (by decide)).elim
      | exact (suffix_conflict _ _ s (match_yaml s hm₁)
          (match_yml s hm₂) (by decide) (by decide)).elim
      | exact (suffix_conflict _ _ s (match_yml s hm₁)
          (match_config_json s hm₂) (by decide) (by decide)).elim
      | exact (suffix_conflict _ _ s (match_yml s hm₁)
          (match_settings_py s hm₂) (by decide) (by decide)).elim
      | exact (suffix_conflict _ _ s (match_yml s hm₁)
          (match_yaml s hm₂) (by decide) (by decide)).elim

theorem allEntries_nil : allEntries [] = [] := rfl

theorem allEntries_cons (g : String × List String) (rest : List (String × List String)) :
    allEntries (g :: rest) = g.2.map (fun v => (g.1, v)) ++ allEntries rest := by
  simp [allEntries]

theorem allEntries_addToGroup (cfgs : List (String × List String)) (k v : String) :
    List.Perm (allEntries (addToGroup cfgs k v)) ((k, v) :: allEntries cfgs) := by
  induction cfgs with
  | nil => simp [addToGroup, allEntries]
  | cons g rest ih =>
    obtain ⟨k', vs⟩ := g
    rw [addToGroup]
    by_cases h : k' = k
    · subst h
      rw [if_pos rfl, allEntries_cons, allEntries_cons]
      simp only [List.map_append, List.map_cons, List.map_nil]
      rw [List.append_assoc]
      exact List.perm_middle
    · rw [if_neg h, allEntries_cons, allEntries_cons]
      exact (ih.append_left _).trans List.perm_middle

theorem processPattern_cons (p : FPath) (rest : List FPath)
    (cfgs : List (String × List String)) (pattern : String) :
    processPattern (p :: rest) cfgs pattern =
      processPattern rest
        (if globMatch pattern.data (fileName p).data then
          if excludedHit p then cfgs else addToGroup cfgs (fileName p) (pathStr p)
        else cfgs) pattern := by
  simp [processPattern]

theorem allEntries_processPattern (tree : List FPath) (pattern : String) :
    ∀ cfgs, List.Perm (allEntries (processPattern tree cfgs pattern))
      (allEntries cfgs ++ (hits tree pattern).map entryOf) := by
  induction tree with
  | nil =>
    intro cfgs
    simp [processPattern, hits]
  | cons p rest ih =>
    intro cfgs
    rw [processPattern_cons]
    by_cases hm : globMatch pattern.data (fileName p).data = true
    · by_cases he : excludedHit p = true
      · rw [if_pos hm, if_pos he]
        have hh : hits (p :: rest) pattern = hits rest pattern := by
          simp [hits, List.filter_cons, hm, he]
        rw [hh]
        exact ih cfgs
      · rw [if_pos hm, if_neg he]
        have hh : hits (p :: rest) pattern = p :: hits rest pattern := by
          simp only [Bool.not_eq_true] at he
          simp [hits, List.filter_cons, hm, he]
        rw [hh, List.map_cons]
        refine (ih _).trans ?_
        refine ((allEntries_addToGroup cfgs _ _).append (List.Perm.refl _)).trans ?_
        exact List.perm_middle.symm
    · rw [if_neg hm]
      have hh : hits (p :: rest) pattern = hits rest pattern := by
        simp only [Bool.not_eq_true] at hm
        simp [hits, List.filter_cons, hm]
      rw [hh]
      exact ih cfgs

theorem allEntries_foldl (tree : List FPath) :
    ∀ (pats : List String) (cfgs : List (String × List String)),
      List.Perm (allEntries (pats.foldl (processPattern tree) cfgs))
        (allEntries cfgs ++ pats.flatMap (fun pat => (hits tree pat).map entryOf)) := by
  intro pats
  induction pats with
  | nil => intro cfgs; simp
  | cons pat rest ih =>
    intro cfgs
    rw [List.foldl_cons, List.flatMap_cons]
    refine (ih _).trans ?_
    refine ((allEntries_processPattern tree pat cfgs).append (List.Perm.refl _)).trans ?_
    rw [List.append_assoc]

theorem allEntries_find (tree : List FPath) :
    List.Perm (allEntries (find_config_files tree))
      (CONFIG_PATTERNS.flatMap (fun pat => (hits tree pat).map entryOf)) := by
  have h := allEntries_foldl tree CONFIG_PATTERNS []
  rw [allEntries_nil, List.nil_append] at h
  exact h

theorem keys_addToGroup (cfgs : List (String × List String)) (k v : String) :
    (addToGroup cfgs k v).map Prod.fst =
      if k ∈ cfgs.map Prod.fst then cfgs.map Prod.fst else cfgs.map Prod.fst ++ [k] := by
  induction cfgs with
  | nil => simp [addToGroup]
  | cons g rest ih =>
    obtain ⟨k', vs⟩ := g
    rw [addToGroup]
    by_cases h : k' = k
    · subst h
      rw [if_pos rfl]
      simp
    · rw [if_neg h]
      simp only [List.map_cons, ih]
      by_cases hk : k ∈ rest.map Prod.fst
      · rw [if_pos hk, if_pos (List.mem_cons_of_mem _ hk)]
      · rw [if_neg hk, if_neg (by simp [hk, Ne.symm h])]
        simp

theorem keysNodup_addToGroup (cfgs : List (String × List String)) (k v : String)
    (h : (cfgs.map Prod.fst).Nodup) : ((addToGroup cfgs k v).map Prod.fst).Nodup := by
  rw [keys_addToGroup]
  by_cases hk : k ∈ cfgs.map Prod.fst
  · rw [if_pos hk]; exact h
  · rw [if_neg hk, List.nodup_append]
    refine ⟨h, List.nodup_singleton k, ?_⟩
    intro a ha hb
    rw [List.mem_singleton] at hb
    subst hb
    exact hk ha

theorem keysNodup_processPattern (tree : List FPath) (pattern : String) :
    ∀ cfgs, (cfgs.map Prod.fst).Nodup →
      ((processPattern tree cfgs pattern).map Prod.fst).Nodup := by
  induction tree with
  | nil => intro cfgs h; exact h
  | cons p rest ih =>
    intro cfgs h
    rw [processPattern_cons]
    by_cases hm : globMatch pattern.data (fileName p).data = true
    · by_cases he : excludedHit p = true
      · rw [if_pos hm, if_pos he]; exact ih cfgs h
      · rw [if_pos hm, if_neg he]; exact ih _ (keysNodup_addToGroup cfgs _ _ h)
    · rw [if_neg hm]; exact ih cfgs h

theorem keysNodup_find (tree : List FPath) :
    ((find_config_files tree).map Prod.fst).Nodup := by
  have hgen : ∀ (pats : List String) (cfgs : List (String × List String)),
      (cfgs.map Prod.fst).Nodup →
      ((pats.foldl (processPattern tree) cfgs).map Prod.fst).Nodup := by
    intro pats
    induction pats with
    | nil => intro cfgs h; exact h
    | cons pat rest ih =>
      intro cfgs h
      rw [List.foldl_cons]
      exact ih _ (keysNodup_processPattern tree pat cfgs h)
  exact hgen CONFIG_PATTERNS [] List.nodup_nil

/-- C1 amended: a `(basename, path)` entry is discovered exactly when some
path of the tree matches a pattern, its *string form* contains no excluded
name as a substring, and it has that basename and string form. -/
theorem c1_discovered_iff (tree : List FPath) (k s : String) :
    (k, s) ∈ allEntries (find_config_files tree) ↔
      ∃ p ∈ tree, (∃ pat ∈ CONFIG_PATTERNS, globMatch pat.data (fileName p).data = true) ∧
        excludedHit p = false ∧ fileName p = k ∧ pathStr p = s := by
  rw [(allEntries_find tree).mem_iff, List.mem_flatMap]
  constructor
  · rintro ⟨pat, hpat, hmem⟩
    rw [List.mem_map] at hmem
    obtain ⟨p, hp, heq⟩ := hmem
    rw [hits, List.mem_filter, Bool.and_eq_true, Bool.not_eq_true'] at hp
    obtain ⟨hptree, hm, he⟩ := hp
    unfold entryOf at heq
    rw [Prod.mk.injEq] at heq
    exact ⟨p, hptree, ⟨pat, hpat, hm⟩, he, heq.1, heq.2⟩
  · rintro ⟨p, hp, ⟨pat, hpat, hm⟩, he, hk, hs⟩
    refine ⟨pat, hpat, ?_⟩
    rw [List.mem_map]
    refine ⟨p, ?_, ?_⟩
    · rw [hits, List.mem_filter, Bool.and_eq_true, Bool.not_eq_true']
      exact ⟨hp, hm, he⟩
    · unfold entryOf
      rw [hk, hs]

/-- C1 counterexample: `myvenv/config.json` has no path component equal to
an excluded directory name, matches `config*.json`, yet is not discovered,
because `venv` occurs as a substring of the path string. -/
theorem c1_counterexample :
    (∀ part ∈ (["myvenv", "config.json"] : List String), part ∉ EXCLUDED) ∧
    "config*.json" ∈ CONFIG_PATTERNS ∧
    globMatch "config*.json".data (fileName ["myvenv", "config.json"]).data = true ∧
    find_config_files [["myvenv", "config.json"]] = [] := by
  refine ⟨by decide, by decide, by decide, by rfl⟩

/-- C10: the five glob patterns are pairwise disjoint, and for a duplicate-free
tree with injective path strings the discovered groups have distinct
basename keys and no path entry is ever recorded twice. -/
theorem c10_unique_discovery (tree : List FPath) (hnd : tree.Nodup)
    (hinj : ∀ p ∈ tree, ∀ q ∈ tree, pathStr p = pathStr q → p = q) :
    (∀ (s : List Char), ∀ p₁ ∈ CONFIG_PATTERNS, ∀ p₂ ∈ CONFIG_PATTERNS,
        globMatch p₁.data s = true → globMatch p₂.data s = true → p₁ = p₂) ∧
    ((find_config_files tree).map Prod.fst).Nodup ∧
    (allEntries (find_config_files tree)).Nodup := by
  refine ⟨fun s => patterns_disjoint s, keysNodup_find tree, ?_⟩
  rw [(allEntries_find tree).nodup_iff, List.nodup_flatMap]
  constructor
  · intro pat _
    refine List.Nodup.map_on ?_ (hnd.sublist (List.filter_sublist tree))
    intro p hp q hq heq
    unfold entryOf at heq
    rw [Prod.mk.injEq] at heq
    exact hinj p (List.mem_of_mem_filter hp) q (List.mem_of_mem_filter hq) heq.2
  · have hconfig : CONFIG_PATTERNS.Nodup := by decide
    refine hconfig.pairwise_of_forall_ne ?_
    intro pat₁ h₁ pat₂ h₂ hne e he₁ he₂
    rw [List.mem_map] at he₁ he₂
    obtain ⟨p, hp, hep⟩ := he₁
    obtain ⟨q, hq, heq⟩ := he₂
    rw [hits, List.mem_filter, Bool.and_eq_true] at hp hq
    have hpq : p = q := by
      have h1 := hep.trans heq.symm
      unfold entryOf at h1
      rw [Prod.mk.injEq] at h1
      exact hinj p hp.1 q hq.1 h1.2
    subst hpq
    exact hne (patterns_disjoint (fileName p).data pat₁ h₁ pat₂ h₂ hp.2.1 hq.2.1)

theorem c10_witness :
    (allEntries (find_config_files [["config.json"], ["sub", "config.json"], ["a.yaml"]])).Nodup :=
  (c10_unique_discovery [["config.json"], ["sub", "config.json"], ["a.yaml"]]
    (by decide) (by decide)).2.2
